import Mathlib

/-!
Verification of the quicksave slot subsystem of savestates.c against its
natural-language specification.  Strings are modelled as lists of characters,
the platform compatibility layer and the external snapshot library are
modelled as an explicit environment record, and the process-wide existence
cache is modelled as explicit state passing.
-/

set_option maxRecDepth 100000

namespace Savestates

/-- Strings of the C program are modelled as lists of characters. -/
abbrev Str := List Char

/-! ## Character classification (ctype and the POSIX classes of the pattern) -/

/-- ASCII whitespace, as in the POSIX space class. -/
def isSpaceA (c : Char) : Bool :=
  c == ' ' || c == '\t' || c == '\n' || c == '\x0b' || c == '\x0c' || c == '\r'

/-- Characters matched by the leading and trailing groups of the qualifier
pattern: whitespace, dash or underscore. -/
def isSpaceDashA (c : Char) : Bool := isSpaceA c || c == '-' || c == '_'

/-- Opening brackets accepted by the qualifier pattern. -/
def isOpenBrA (c : Char) : Bool := c == '(' || c == '['

/-- Closing brackets accepted by the qualifier pattern. -/
def isCloseBrA (c : Char) : Bool := c == ')' || c == ']'

/-- ASCII alphanumeric characters. -/
def isAlnumA (c : Char) : Bool :=
  ('0' ≤ c && c ≤ '9') || ('a' ≤ c && c ≤ 'z') || ('A' ≤ c && c ≤ 'Z')

/-- POSIX punct class over ASCII: printable, not alphanumeric, not space. -/
def isPunctA (c : Char) : Bool :=
  33 ≤ c.toNat && c.toNat ≤ 126 && !isAlnumA c

/-- Separator characters between the keyword and the identifier token in the
qualifier pattern: whitespace or punctuation. -/
def isSepPunctA (c : Char) : Bool := isSpaceA c || isPunctA c

/-- ASCII decimal digit, as the isdigit test of ctype. -/
def isDigitA (c : Char) : Bool := '0' ≤ c && c ≤ '9'

/-! ## The qualifier pattern of re_expressions

The single pattern of re_expressions in savestates.c is, in POSIX extended
syntax with case folding:
leading space or dash or underscore characters, opening brackets and spaces,
a keyword among disk, tape, side and part, separator space or punctuation
characters, an identifier character among a b c d 1 2 3 4, optionally
repeated groups of the word of followed by a digit 1 to 4, spaces and closing
brackets, and trailing space or dash or underscore characters.
The matcher below is a deterministic greedy parser for that pattern, applied
left to right with non-overlapping removals, which is how
compat_chop_expressions applies the rule list. -/

/-- Case-insensitive comparison of a character against the lowercase and
uppercase form of a letter. -/
def ci (c lo up : Char) : Bool := c == lo || c == up

/-- Four characters spell one of the keywords disk, tape, side or part,
case-insensitively. -/
def kw4 (a b c d : Char) : Bool :=
  (ci a 'd' 'D' && ci b 'i' 'I' && ci c 's' 'S' && ci d 'k' 'K') ||
  (ci a 't' 'T' && ci b 'a' 'A' && ci c 'p' 'P' && ci d 'e' 'E') ||
  (ci a 's' 'S' && ci b 'i' 'I' && ci c 'd' 'D' && ci d 'e' 'E') ||
  (ci a 'p' 'P' && ci b 'a' 'A' && ci c 'r' 'R' && ci d 't' 'T')

/-- Identifier characters of the qualifier pattern, case-insensitively. -/
def isIdChar (c : Char) : Bool :=
  ['a', 'b', 'c', 'd', 'A', 'B', 'C', 'D', '1', '2', '3', '4'].contains c

/-- Digits accepted after the word of in the qualifier pattern. -/
def isDigit14 (c : Char) : Bool := ['1', '2', '3', '4'].contains c

/-- Greedy repetition of the optional group: spaces, the word of, spaces and a
digit 1 to 4.  The fuel argument bounds the recursion; the input length is
always a sufficient amount of fuel because every iteration consumes at least
three characters. -/
def parseOfF : Nat → Str → Str
  | 0, l => l
  | fuel + 1, l =>
    match l.dropWhile isSpaceA with
    | [] => l
    | o :: rest =>
      if ci o 'o' 'O' then
        match rest with
        | [] => l
        | fc :: rest2 =>
          if ci fc 'f' 'F' then
            match rest2.dropWhile isSpaceA with
            | [] => l
            | dch :: rest3 =>
              if isDigit14 dch then parseOfF fuel rest3 else l
          else l
      else l

/-- Attempt to match the qualifier pattern at the start of the input.  On
success the result is the remainder of the input after the full greedy match,
which always consumes at least the keyword and the identifier character. -/
def matchQualifier (l : Str) : Option Str :=
  match ((l.dropWhile isSpaceDashA).dropWhile isOpenBrA).dropWhile isSpaceA with
  | a :: b :: c :: d :: r3 =>
    if kw4 a b c d then
      match r3.dropWhile isSepPunctA with
      | [] => none
      | i :: r5 =>
        if isIdChar i then
          some ((((parseOfF r5.length r5).dropWhile isSpaceA).dropWhile
            isCloseBrA).dropWhile isSpaceDashA)
        else none
    else none
  | _ => none

/-- Removal of every non-overlapping match of the qualifier pattern, left to
right.  The fuel argument bounds the recursion; the input length is always a
sufficient amount of fuel because every step consumes at least one
character. -/
def chopF : Nat → Str → Str
  | 0, l => l
  | _ + 1, [] => []
  | fuel + 1, c :: cs =>
    match matchQualifier (c :: cs) with
    | some rest => chopF fuel rest
    | none => c :: chopF fuel cs

/-- Modelled from the spec: compat_chop_expressions (platform compatibility
layer, not under src) removes every non-overlapping match of the rule list
from the string, left to right, case-insensitively.  The rule list of
savestates.c holds the single qualifier pattern re_expressions. -/
def compat_chop_expressions (l : Str) : Str := chopF l.length l

/-! ## Base names, extensions and numeric parsing -/

/-- Part of a path after the last directory separator. -/
def baseNameOf : Str → Str
  | [] => []
  | c :: cs =>
    if c = '/' then baseNameOf cs
    else if '/' ∈ cs then baseNameOf cs
    else c :: cs

/-- Part of a name before its last dot; the name is unchanged when it has no
dot. -/
def dropLastExt (l : Str) : Str :=
  if '.' ∈ l then ((l.reverse.dropWhile (fun c => !(c == '.'))).drop 1).reverse
  else l

/-- Modelled from the spec: utils_last_filename (host utilities, not under
src) strips the path components from a name, and when the flag is set also
strips the extension after the last dot. -/
def lastFilename (l : Str) (stripExt : Bool) : Str :=
  if stripExt then dropLastExt (baseNameOf l) else baseNameOf l

/-- Suffix of a string starting at its last dot, as strrchr with a dot. -/
def strrchrDot : Str → Option Str
  | [] => none
  | c :: cs =>
    match strrchrDot cs with
    | some r => some r
    | none => if c = '.' then some (c :: cs) else none

/-- C strncmp equality on counted strings: characters are compared pairwise up
to the given count, and the end of a list plays the role of the terminating
null, so lists of different lengths below the count are unequal. -/
def strncmpEq : Nat → Str → Str → Bool
  | 0, _, _ => true
  | _ + 1, [], [] => true
  | _ + 1, [], _ :: _ => false
  | _ + 1, _ :: _, [] => false
  | n + 1, a :: as, b :: bs => a == b && strncmpEq n as bs

/-- Accumulating loop of atoi over leading decimal digits. -/
def atoiLoop (acc : Int) : Str → Int
  | [] => acc
  | c :: rest =>
    if isDigitA c then atoiLoop (10 * acc + (c.toNat - 48)) rest else acc

/-- C atoi: skip leading whitespace, read an optional sign and then leading
decimal digits; a string with no leading digits parses to zero. -/
def atoi (l : Str) : Int :=
  match l.dropWhile isSpaceA with
  | [] => 0
  | c :: r =>
    if c == '-' then -(atoiLoop 0 r)
    else if c == '+' then atoiLoop 0 r
    else atoiLoop 0 (c :: r)

/-- Property of a name whose first character can start no decimal parse:
not a digit, not a sign and not whitespace. -/
def noLeadingDigit (l : Str) : Bool :=
  match l with
  | [] => true
  | c :: _ => !isDigitA c && !(c == '+') && !(c == '-') && !isSpaceA c

/-- Decimal digit character for a value below ten. -/
def digitChar (n : Nat) : Char := Char.ofNat (48 + n)

/-- Decimal digits of a natural number, least significant first.  The fuel
argument bounds the recursion and any amount at least the number of digits is
sufficient. -/
def decRevAux : Nat → Nat → Str
  | 0, _ => []
  | fuel + 1, n =>
    if n < 10 then [digitChar n] else digitChar (n % 10) :: decRevAux fuel (n / 10)

/-- Decimal rendering of a natural number. -/
def decRepr (n : Nat) : Str := (decRevAux (n + 1) n).reverse

/-- Rendering of an int by snprintf with the format 02d: decimal digits,
zero-padded on the left to width two. -/
def sprintf02d (i : Int) : Str :=
  if i < 0 then '-' :: decRepr (-i).toNat
  else if i.toNat < 10 then '0' :: decRepr i.toNat
  else decRepr i.toNat

/-! ## Data model: machines, snapshots, directory entries, environment -/

/-- Machine identifiers of the external snapshot library. -/
inductive Machine where
  | M16 | M48 | M48NTSC | M128 | M128E | PLUS2 | PLUS2A | PLUS3 | PLUS3E
  | SE | TC2048 | TC2068 | TS2068 | PENT | PENT512 | PENT1024 | SCORP | UNKNOWN
deriving DecidableEq

/-- Parsed snapshot, as exposed by the accessors of the snapshot library: the
recorded machine, the 128K paging register byte, and the memory pages as a
function from page index and offset to byte. -/
structure Snap where
  machine : Machine
  out_128_memoryport : Nat
  pages : Nat → Nat → Nat

/-- Result of stat on a path: success, missing entry, or another error. -/
inductive StatRes where
  | ok | enoent | eother
deriving DecidableEq

/-- One readdir step: an entry name, or an enumeration error.  Reaching the
end of the entry list is the end-of-entries result. -/
inductive DirEntry where
  | ok (name : Str)
  | err
deriving DecidableEq

/-- Outcome of walking the entry list: finished with an existence flag, or an
enumeration error part way through. -/
inductive ScanOutcome where
  | finished (exist : Bool)
  | midError
deriving DecidableEq

/-- Configuration inputs read by the subsystem. -/
structure Settings where
  od_quicksave_format : Str
  od_quicksave_slot : Int
  od_quicksave_per_machine : Bool
deriving DecidableEq

/-- Environment: the globally tracked last opened filename, the configuration
root, the current machine name, and the behaviour of the platform
compatibility layer and of the external snapshot library. -/
structure Env where
  last_filename : Option Str
  cfgdir : Option Str
  machineName : Str
  statResult : Str → StatRes
  fileExists : Str → Bool
  openDir : Str → Option (List DirEntry)
  closeDirOk : Str → Bool
  readFile : Str → Option (List Nat)
  parseSnap : List Nat → Option Snap
  openProgramResult : Str → Int
  snapshotWriteResult : Str → Int
  snapFreeResult : Int
  createDirOk : Str → Bool

/-- Process-wide cache of the existence query: the last checked directory and
its sticky result. -/
structure CacheState where
  last_check_directory : Option Str
  last_check_directory_result : Bool
deriving DecidableEq

/-- Result of one existence query: the returned flag, the cache state after
the call, and whether the call scanned the directory. -/
structure CheckOutcome where
  result : Bool
  state : CacheState
  scanned : Bool
deriving DecidableEq

/-- Result of a load operation: the returned code and the list of paths passed
to the open-program collaborator of the host. -/
structure LoadResult where
  code : Int
  opened : List Str
deriving DecidableEq

/-- Literal directory component savestates of the on-disk layout. -/
def savestatesLit : Str := ['s', 'a', 'v', 'e', 's', 't', 'a', 't', 'e', 's']

/-! ## The operations of savestates.c -/

/-- Translation of check_dir_exist: no path gives -1, a missing entry gives 0,
another stat error gives -1, and an existing directory gives 1. -/
def check_dir_exist (env : Env) : Option Str → Int
  | none => -1
  | some d =>
    match env.statResult d with
    | .ok => 1
    | .enoent => 0
    | .eother => -1

/-- Translation of quicksave_get_current_program: the sanitized base name of
the last opened filename, or nothing when no program is loaded. -/
def quicksave_get_current_program (env : Env) : Option Str :=
  match env.last_filename with
  | none => none
  | some lf => some (compat_chop_expressions (lastFilename lf true))

/-- Translation of quicksave_get_current_dir: config root, the savestates
component, optionally the machine name, then the sanitized program name. -/
def quicksave_get_current_dir (env : Env) (s : Settings) : Option Str :=
  match env.last_filename with
  | none => none
  | some lf =>
    match env.cfgdir with
    | none => none
    | some cfg =>
      some ((cfg ++ '/' :: savestatesLit) ++
        (if s.od_quicksave_per_machine then '/' :: env.machineName else []) ++
        '/' :: compat_chop_expressions (lastFilename lf true))

/-- Translation of quicksave_get_filename: the save directory, a separator,
the slot rendered by the format 02d, and the configured extension. -/
def quicksave_get_filename (env : Env) (s : Settings) (slot : Int) : Option Str :=
  match quicksave_get_current_dir env s with
  | none => none
  | some d => some (d ++ '/' :: (sprintf02d slot ++ s.od_quicksave_format))

/-- Translation of quicksave_create_dir: resolve the save directory, create it
when stat reports a missing entry, fail on any other stat error or on a
creation failure. -/
def quicksave_create_dir (env : Env) (s : Settings) : Int :=
  match quicksave_get_current_dir env s with
  | none => 1
  | some d =>
    match env.statResult d with
    | .enoent => if env.createDirOk d then 0 else 1
    | .eother => 1
    | .ok => 0

/-- Core of is_savestate_name on the already extracted base name: length
exactly six, the suffix from the last dot compared against the configured
format by strncmp with count four, and two leading digits. -/
def is_savestate_base (fmt : Str) (filename : Str) : Bool :=
  if filename.length ≠ 6 then false
  else
    match strrchrDot filename with
    | none => false
    | some ext =>
      if strncmpEq 4 ext fmt then
        match filename with
        | a :: b :: _ => isDigitA a && isDigitA b
        | _ => false
      else false

/-- Translation of is_savestate_name: the validator applied to the base name
of a directory entry. -/
def is_savestate_name (fmt : Str) (name : Str) : Bool :=
  is_savestate_base fmt (lastFilename name false)

/-- Walk of the readdir loop over the entry list: stop with true at the first
entry accepted by the predicate, stop with an error marker on an enumeration
error, finish with false at the end of the entries. -/
def scanEntries (check : Str → Bool) : List DirEntry → ScanOutcome
  | [] => .finished false
  | .ok n :: rest => if check n then .finished true else scanEntries check rest
  | .err :: _ => .midError

/-- Translation of scan_directory_for_savestates: no directory or an open
failure gives false, an enumeration error gives false, and otherwise the
existence flag is returned, turned into false when closing the directory
handle fails. -/
def scan_directory_for_savestates (env : Env) (check : Str → Bool) :
    Option Str → Bool
  | none => false
  | some d =>
    match env.openDir d with
    | none => false
    | some entries =>
      match scanEntries check entries with
      | .midError => false
      | .finished exist => if env.closeDirOk d then exist else false

/-- Translation of check_current_savestate_exist: the slot file path resolves
and the file exists. -/
def check_current_savestate_exist (env : Env) (s : Settings) (slot : Int) : Bool :=
  match quicksave_get_filename env s slot with
  | none => false
  | some f => env.fileExists f

/-- Translation of check_any_savestate_exist: resolve the directory, return
false when it cannot be resolved or stat reports a missing entry; on a cache
miss reset the cache to the new directory with a false result; on a cache hit
with a false result scan and store; on a cache hit with a true result return
true without scanning. -/
def check_any_savestate_exist (env : Env) (s : Settings) (st : CacheState) :
    CheckOutcome :=
  match quicksave_get_current_dir env s with
  | none => ⟨false, st, false⟩
  | some d =>
    if check_dir_exist env (some d) = 0 then ⟨false, st, false⟩
    else
      match st.last_check_directory with
      | none => ⟨false, ⟨some d, false⟩, false⟩
      | some c =>
        if c ≠ d then ⟨false, ⟨some d, false⟩, false⟩
        else if st.last_check_directory_result = false then
          let r := scan_directory_for_savestates env
            (is_savestate_name s.od_quicksave_format) (some d)
          ⟨r, ⟨some c, r⟩, true⟩
        else ⟨true, st, false⟩

/-- Translation of savestate_read_internal: return 1 when the slot file does
not exist or the path cannot be resolved, otherwise delegate to the
open-program collaborator of the host and record the call. -/
def savestate_read_internal (env : Env) (s : Settings) (slot : Int) : LoadResult :=
  if !check_current_savestate_exist env s slot then ⟨1, []⟩
  else
    match quicksave_get_filename env s slot with
    | none => ⟨1, []⟩
    | some filename => ⟨env.openProgramResult filename, [filename]⟩

/-- Translation of savestate_write_internal: resolve the slot file path,
ensure the save directory exists, then delegate to the snapshot writer. -/
def savestate_write_internal (env : Env) (s : Settings) (slot : Int) : Int :=
  match quicksave_get_filename env s slot with
  | none => 1
  | some filename =>
    if quicksave_create_dir env s ≠ 0 then 1
    else env.snapshotWriteResult filename

/-- Translation of quicksave_load: when the slot file of the default slot does
not exist return 0 without delegating; otherwise run the internal read
between the pause and unpause brackets. -/
def quicksave_load (env : Env) (s : Settings) : LoadResult :=
  if !check_current_savestate_exist env s s.od_quicksave_slot then ⟨0, []⟩
  else savestate_read_internal env s s.od_quicksave_slot

/-- Translation of quicksave_save: run the internal write between the pause
and unpause brackets. -/
def quicksave_save (env : Env) (s : Settings) : Int :=
  savestate_write_internal env s s.od_quicksave_slot

/-- Translation of savestate_read: set the default slot setting to the parse
of the trailing base name of the argument, then delegate to the internal
read with that slot. -/
def savestate_read (env : Env) (s : Settings) (savestate : Str) :
    Int × Settings :=
  let s2 : Settings := { s with od_quicksave_slot := atoi (lastFilename savestate true) }
  ((savestate_read_internal env s2 s2.od_quicksave_slot).code, s2)

/-- Translation of savestate_write: set the default slot setting to the parse
of the trailing base name of the argument, then delegate to the internal
write with that slot. -/
def savestate_write (env : Env) (s : Settings) (savestate : Str) :
    Int × Settings :=
  let s2 : Settings := { s with od_quicksave_slot := atoi (lastFilename savestate true) }
  (savestate_write_internal env s2 s2.od_quicksave_slot, s2)

/-- Translation of savetate_read_snapshot: the path must be present and the
file must exist, the raw bytes are read and then parsed by the snapshot
library; any failure is reported as no snapshot. -/
def savetate_read_snapshot (env : Env) (snapshot : Option Str) : Option Snap :=
  match snapshot with
  | none => none
  | some p =>
    if env.fileExists p then
      match env.readFile p with
      | none => none
      | some bytes => env.parseSnap bytes
    else none

/-- Display page selection of savestate_get_screen_for_slot: for the machines
of the 128K paging family the page is 7 when bit 3 of the paging register
byte is set and 5 otherwise, and for every other machine the page is 5. -/
def page_for_snap (snap : Snap) : Nat :=
  match snap.machine with
  | .PENT | .PENT512 | .PENT1024 | .SCORP | .PLUS3E | .PLUS2A | .PLUS3
  | .PLUS2 | .M128 | .M128E | .SE =>
    if snap.out_128_memoryport &&& 8 ≠ 0 then 7 else 5
  | _ => 5

/-- Translation of savestate_get_screen_for_slot: the 6912 byte buffer is
zero-filled first; on any failure to locate, read or parse the snapshot the
zero buffer is returned with a nonzero code; on success exactly 6912 bytes
are copied from the selected memory page, and the release code of the
snapshot library is returned. -/
def savestate_get_screen_for_slot (env : Env) (s : Settings) (slot : Int) :
    Int × List Nat :=
  match savetate_read_snapshot env (quicksave_get_filename env s slot) with
  | none => (1, List.replicate 6912 0)
  | some snap =>
    (env.snapFreeResult, (List.range 6912).map (snap.pages (page_for_snap snap)))

/-! ## Further definitions used to state and settle the claims -/

/-- Machines of the 128K paging family as named by the claim. -/
def pagingFamily : List Machine :=
  [Machine.PENT, Machine.PENT512, Machine.PENT1024, Machine.SCORP,
   Machine.PLUS3E, Machine.PLUS2A, Machine.PLUS3, Machine.PLUS2,
   Machine.M128, Machine.M128E, Machine.SE]

/-- Modelled from the spec: the claimed shape of a recognized slot file name,
written exactly as the specification words it.  The base name must be two
ASCII digits followed by the configured extension, which fixes its length to
two plus the length of the extension. -/
def validator_claim_shape (fmt : Str) (name : Str) : Bool :=
  match lastFilename name false with
  | a :: c :: rest => isDigitA a && isDigitA c && rest == fmt
  | _ => false

/-- Presence of one of the four qualifier keywords as a contiguous substring,
case-insensitively. -/
def hasKeyword : Str → Bool
  | a :: b :: c :: d :: rest => kw4 a b c d || hasKeyword (b :: c :: d :: rest)
  | _ => false

/-- Characters consumable by the prefix groups of the qualifier pattern:
whitespace, dash, underscore or an opening bracket. -/
def clsB (c : Char) : Bool := isSpaceDashA c || isOpenBrA c

/-- Rendering of a parenthesised qualifier with a four-letter keyword, an
identifier character and an of-number, as in a name like
Game (Disk 1 of 2). -/
def qualStr (w1 w2 w3 w4 i k : Char) : Str :=
  [' ', '(', w1, w2, w3, w4, ' ', i, ' ', 'o', 'f', ' ', k, ')']

/-- Remainder of the input after the qualifier match: the pattern greedily
also consumes closing brackets and then trailing space, dash or underscore
characters of the continuation. -/
def tailAfter (t : Str) : Str :=
  (t.dropWhile isCloseBrA).dropWhile isSpaceDashA

/-! ## Concrete instances used by witnesses and counterexamples -/

/-- Concrete snapshot on a 48K machine with a clear paging register. -/
def snapA : Snap := ⟨.M48, 0, fun _ _ => 0⟩

/-- Concrete environment with a loaded program g, config root c, an existing
save directory holding one valid slot file, and successful collaborators. -/
def envA : Env :=
  { last_filename := some ['g']
    cfgdir := some ['c']
    machineName := ['m']
    statResult := fun _ => .ok
    fileExists := fun _ => true
    openDir := fun _ => some [.ok ['0', '0', '.', 's', 'z', 'x']]
    closeDirOk := fun _ => true
    readFile := fun _ => some []
    parseSnap := fun _ => some snapA
    openProgramResult := fun _ => 0
    snapshotWriteResult := fun _ => 0
    snapFreeResult := 0
    createDirOk := fun _ => true }

/-- Variant of the concrete environment in which no file exists. -/
def envB : Env := { envA with fileExists := fun _ => false }

/-- Concrete settings: extension szx with a dot, slot 0, no per-machine
directories. -/
def setA : Settings :=
  { od_quicksave_format := ['.', 's', 'z', 'x']
    od_quicksave_slot := 0
    od_quicksave_per_machine := false }

/-- Resolved save directory of the concrete environment. -/
def dirA : Str := ['c', '/', 's', 'a', 'v', 'e', 's', 't', 'a', 't', 'e', 's', '/', 'g']

/-- Cache state naming a different directory than the resolved one. -/
def stX : CacheState := ⟨some ['x'], false⟩

end Savestates

namespace Savestates

/-! ## Claims C1, C3, C5, C6 -/

/-- C1 counterexample: the resolved directory exists on disk, differs from the
cached directory, and contains an entry accepted by the validator, so a scan
would return true; yet the call returns false and performs no scan inside the
same call, against the claim. -/
theorem c1_counterexample :
    (check_any_savestate_exist envA setA stX).result = false ∧
    (check_any_savestate_exist envA setA stX).scanned = false ∧
    quicksave_get_current_dir envA setA = some dirA ∧
    check_dir_exist envA (some dirA) = 1 ∧
    stX.last_check_directory ≠ some dirA ∧
    scan_directory_for_savestates envA
      (is_savestate_name setA.od_quicksave_format) (some dirA) = true := by
  decide

/-- C1 amended: when the resolved directory exists and differs from the cached
one, the call resets the cached path to the new directory and the cached
result to false and returns false without scanning; the scan then happens on
the next call with the same resolved directory, which returns the fresh scan
result. -/
theorem c1_amended (env : Env) (s : Settings) (st : CacheState) (d : Str)
    (hd : quicksave_get_current_dir env s = some d)
    (hex : check_dir_exist env (some d) ≠ 0)
    (hne : st.last_check_directory ≠ some d) :
    check_any_savestate_exist env s st = ⟨false, ⟨some d, false⟩, false⟩ ∧
    (check_any_savestate_exist env s ⟨some d, false⟩).result =
      scan_directory_for_savestates env
        (is_savestate_name s.od_quicksave_format) (some d) ∧
    (check_any_savestate_exist env s ⟨some d, false⟩).scanned = true := by
  refine ⟨?_, ?_, ?_⟩ <;> unfold check_any_savestate_exist <;> rw [hd]
  · cases hc : st.last_check_directory with
    | none => simp [hex]
    | some c =>
      have : c ≠ d := by
        intro h
        exact hne (by rw [hc, h])
      simp [hex, this]
  · simp [hex]
  · simp [hex]

/-- C1 amended, witness at the concrete environment. -/
theorem c1_amended_witness :
    check_any_savestate_exist envA setA stX = ⟨false, ⟨some dirA, false⟩, false⟩ ∧
    (check_any_savestate_exist envA setA ⟨some dirA, false⟩).result =
      scan_directory_for_savestates envA
        (is_savestate_name setA.od_quicksave_format) (some dirA) ∧
    (check_any_savestate_exist envA setA ⟨some dirA, false⟩).scanned = true :=
  c1_amended envA setA stX dirA (by decide) (by decide) (by decide)

/-- C3: when the save file of the default slot does not exist on disk, the
load operation returns 0 and never invokes the open-program collaborator of
the host. -/
theorem c3_load_missing_slot_noop (env : Env) (s : Settings)
    (h : ∀ f, quicksave_get_filename env s s.od_quicksave_slot = some f →
      env.fileExists f = false) :
    quicksave_load env s = ⟨0, []⟩ := by
  have hx : check_current_savestate_exist env s s.od_quicksave_slot = false := by
    unfold check_current_savestate_exist
    cases hq : quicksave_get_filename env s s.od_quicksave_slot with
    | none => rfl
    | some f => exact h f hq
  unfold quicksave_load
  simp [hx]

/-- C3 witness: in the environment without files, the load of the default
slot is a success no-op with no open-program call. -/
theorem c3_witness : quicksave_load envB setA = ⟨0, []⟩ :=
  c3_load_missing_slot_noop envB setA (fun _ _ => rfl)

/-- C5: the screen extraction always yields a 6912 byte buffer, and when the
path cannot be resolved, the file does not exist, the read fails or the parse
fails, the buffer consists entirely of zero bytes. -/
theorem c5_screen_buffer (env : Env) (s : Settings) (slot : Int) :
    (savestate_get_screen_for_slot env s slot).2.length = 6912 ∧
    ((quicksave_get_filename env s slot = none ∨
      ∃ f, quicksave_get_filename env s slot = some f ∧
        (env.fileExists f = false ∨ env.readFile f = none ∨
          ∃ bytes, env.readFile f = some bytes ∧ env.parseSnap bytes = none)) →
      (savestate_get_screen_for_slot env s slot).2 = List.replicate 6912 0) := by
  constructor
  · unfold savestate_get_screen_for_slot
    cases savetate_read_snapshot env (quicksave_get_filename env s slot) with
    | none =>
      change (List.replicate 6912 (0 : Nat)).length = 6912
      exact List.length_replicate 6912 0
    | some snap =>
      change (List.map (snap.pages (page_for_snap snap)) (List.range 6912)).length = 6912
      rw [List.length_map, List.length_range]
  · intro h
    have hs : savetate_read_snapshot env (quicksave_get_filename env s slot) = none := by
      unfold savetate_read_snapshot
      rcases h with h | ⟨f, hf, hcase⟩
      · rw [h]
      · rw [hf]
        rcases hcase with hc | hc | ⟨bytes, hb, hp⟩
        · simp [hc]
        · cases hfe : env.fileExists f <;> simp [hc]
        · cases hfe : env.fileExists f <;> simp [hb, hp]
    unfold savestate_get_screen_for_slot
    rw [hs]

/-- C5 witness: for a nonexistent slot file the buffer is all zeros and has
length 6912. -/
theorem c5_witness :
    (savestate_get_screen_for_slot envB setA 0).2.length = 6912 ∧
    (savestate_get_screen_for_slot envB setA 0).2 = List.replicate 6912 0 :=
  ⟨(c5_screen_buffer envB setA 0).1,
    (c5_screen_buffer envB setA 0).2
      (Or.inr ⟨dirA ++ '/' :: (sprintf02d 0 ++ setA.od_quicksave_format),
        by decide, Or.inl rfl⟩)⟩

/-- C6: when the resolved directory equals the cached one, the directory
exists per stat, and the cached result is true, the query returns true with
the state unchanged and no scan, for every possible directory content. -/
theorem c6_sticky_positive (env : Env) (s : Settings) (st : CacheState) (d : Str)
    (hd : quicksave_get_current_dir env s = some d)
    (hex : check_dir_exist env (some d) ≠ 0)
    (hc : st.last_check_directory = some d)
    (hr : st.last_check_directory_result = true) :
    ∀ od, check_any_savestate_exist { env with openDir := od } s st =
      ⟨true, st, false⟩ := by
  intro od
  have hd2 : quicksave_get_current_dir { env with openDir := od } s = some d := hd
  have hex2 : check_dir_exist { env with openDir := od } (some d) ≠ 0 := hex
  unfold check_any_savestate_exist
  rw [hd2, hc]
  simp [hex2, hr]

/-- C6 witness: concrete cache hit with a true sticky result returns true
without scanning even when the directory cannot be opened at all. -/
theorem c6_witness :
    check_any_savestate_exist { envA with openDir := fun _ => none } setA
      ⟨some dirA, true⟩ = ⟨true, ⟨some dirA, true⟩, false⟩ :=
  c6_sticky_positive envA setA ⟨some dirA, true⟩ dirA (by decide) (by decide)
    rfl rfl (fun _ => none)

/-! ## Claims C4, C7, C10 -/

/-- Helper: the page selected by the code agrees with the claim formulation
through bit 3 of the paging register byte. -/
theorem page_for_snap_eq (snap : Snap) :
    page_for_snap snap =
      (if snap.machine ∈ pagingFamily then
        (if snap.out_128_memoryport.testBit 3 then 7 else 5)
      else 5) := by
  have h8 : (snap.out_128_memoryport &&& 8 ≠ 0) ↔
      snap.out_128_memoryport.testBit 3 = true := by
    rw [show (8 : Nat) = 2 ^ 3 from rfl, Nat.and_two_pow]
    cases snap.out_128_memoryport.testBit 3 <;> simp
  unfold page_for_snap
  cases hm : snap.machine <;> simp [hm, h8, pagingFamily]

/-- C4: for every successfully parsed snapshot, the buffer holds exactly 6912
bytes copied from page 7 when the machine is in the 128K paging family and
bit 3 of the paging register is set, from page 5 when that bit is clear, and
from page 5 for every other machine. -/
theorem c4_page_selection (env : Env) (s : Settings) (slot : Int) (snap : Snap)
    (h : savetate_read_snapshot env (quicksave_get_filename env s slot) = some snap) :
    (savestate_get_screen_for_slot env s slot).2 =
      (List.range 6912).map (snap.pages
        (if snap.machine ∈ pagingFamily then
          (if snap.out_128_memoryport.testBit 3 then 7 else 5)
        else 5)) ∧
    (savestate_get_screen_for_slot env s slot).2.length = 6912 := by
  constructor
  · unfold savestate_get_screen_for_slot
    rw [h]
    change (List.range 6912).map (snap.pages (page_for_snap snap)) = _
    rw [page_for_snap_eq]
  · unfold savestate_get_screen_for_slot
    rw [h]
    change (List.map (snap.pages (page_for_snap snap)) (List.range 6912)).length = 6912
    rw [List.length_map, List.length_range]

/-- C4 witness: the concrete environment parses to a 48K snapshot and the
buffer is copied from page 5. -/
theorem c4_witness :
    savetate_read_snapshot envA (quicksave_get_filename envA setA 0) =
      some snapA ∧
    (savestate_get_screen_for_slot envA setA 0).2 =
      (List.range 6912).map (snapA.pages
        (if snapA.machine ∈ pagingFamily then
          (if snapA.out_128_memoryport.testBit 3 then 7 else 5)
        else 5)) :=
  ⟨rfl, (c4_page_selection envA setA 0 snapA rfl).1⟩

/-- C7 counterexample: the directory enumeration yields an entry accepted by
the predicate, yet the scan returns false because closing the directory
handle afterwards fails; the claim required true whenever some enumerated
entry satisfies the predicate. -/
theorem c7_counterexample :
    scanEntries (is_savestate_name setA.od_quicksave_format)
      [DirEntry.ok ['0', '0', '.', 's', 'z', 'x']] = .finished true ∧
    scan_directory_for_savestates { envA with closeDirOk := fun _ => false }
      (is_savestate_name setA.od_quicksave_format) (some dirA) = false := by
  decide

/-- C7 amended: the scan returns false for a missing directory or a failed
open, false on an enumeration error part way through, false when the
enumeration ends with no match, and, when a match is found while enumerating
(stopping at the first match), the result is true exactly when the final
directory close succeeds; a failed close turns it into false. -/
theorem c7_amended (env : Env) (check : Str → Bool) (d : Str) :
    scan_directory_for_savestates env check none = false ∧
    (env.openDir d = none →
      scan_directory_for_savestates env check (some d) = false) ∧
    (∀ entries, env.openDir d = some entries →
      (scanEntries check entries = .midError →
        scan_directory_for_savestates env check (some d) = false) ∧
      (scanEntries check entries = .finished false →
        scan_directory_for_savestates env check (some d) = false) ∧
      (scanEntries check entries = .finished true →
        scan_directory_for_savestates env check (some d) = env.closeDirOk d)) ∧
    (∀ n rest, check n = true →
      scanEntries check (DirEntry.ok n :: rest) = .finished true) := by
  refine ⟨rfl, ?_, ?_, ?_⟩
  · intro h
    simp only [scan_directory_for_savestates, h]
  · intro entries he
    refine ⟨?_, ?_, ?_⟩ <;> intro hs <;>
      simp only [scan_directory_for_savestates, he, hs, ite_self]
    cases h2 : env.closeDirOk d <;> simp [h2]
  · intro n rest hc
    simp only [scanEntries, hc, if_true]

/-- C7 amended, witness at the concrete environment: one matching entry and a
successful close give true. -/
theorem c7_witness :
    envA.openDir dirA = some [DirEntry.ok ['0', '0', '.', 's', 'z', 'x']] ∧
    scan_directory_for_savestates envA
      (is_savestate_name setA.od_quicksave_format) (some dirA) =
      envA.closeDirOk dirA :=
  ⟨rfl,
    (((c7_amended envA (is_savestate_name setA.od_quicksave_format)
      dirA).2.2.1 [DirEntry.ok ['0', '0', '.', 's', 'z', 'x']] rfl)).2.2
      (by decide)⟩

/-- Helper: atoi of a string whose first character is not a digit, a sign or
whitespace parses to zero. -/
theorem atoi_of_no_leading_digit (l : Str) (h : noLeadingDigit l = true) :
    atoi l = 0 := by
  unfold atoi
  cases l with
  | nil => rfl
  | cons c rest =>
    unfold noLeadingDigit at h
    simp only [Bool.and_eq_true, Bool.not_eq_true'] at h
    obtain ⟨⟨⟨hd, hp⟩, hm⟩, hsp⟩ := h
    rw [List.dropWhile_cons_of_neg (by simp [hsp])]
    simp only [hp, hm, if_false, Bool.false_eq_true]
    unfold atoiLoop
    simp [hd]

/-- C10: the by-path operations first set the default slot setting to the
atoi parse of the trailing base name, delegate with that updated setting, and
the setting keeps the parsed value regardless of the delegated outcome; a
base name with no leading digits selects slot 0. -/
theorem c10_by_path_sets_slot (env : Env) (s : Settings) (p : Str) :
    (savestate_read env s p).2.od_quicksave_slot = atoi (lastFilename p true) ∧
    (savestate_write env s p).2.od_quicksave_slot = atoi (lastFilename p true) ∧
    (savestate_read env s p).1 =
      (savestate_read_internal env
        { s with od_quicksave_slot := atoi (lastFilename p true) }
        (atoi (lastFilename p true))).code ∧
    (savestate_write env s p).1 =
      savestate_write_internal env
        { s with od_quicksave_slot := atoi (lastFilename p true) }
        (atoi (lastFilename p true)) ∧
    (noLeadingDigit (lastFilename p true) = true →
      (savestate_read env s p).2.od_quicksave_slot = 0 ∧
      (savestate_write env s p).2.od_quicksave_slot = 0) := by
  refine ⟨rfl, rfl, rfl, rfl, ?_⟩
  intro h
  exact ⟨atoi_of_no_leading_digit _ h, atoi_of_no_leading_digit _ h⟩

/-- C10 witness: a base name with no leading digits selects slot 0 in both
by-path operations. -/
theorem c10_witness :
    noLeadingDigit (lastFilename ['a', 'b'] true) = true ∧
    (savestate_read envA setA ['a', 'b']).2.od_quicksave_slot = 0 ∧
    (savestate_write envA setA ['a', 'b']).2.od_quicksave_slot = 0 :=
  ⟨by decide,
    (c10_by_path_sets_slot envA setA ['a', 'b']).2.2.2.2 (by decide)⟩

/-! ## Claim C8 -/

/-- Helper: decimal digit characters are ASCII digits. -/
theorem isDigitA_digitChar (k : Nat) (h : k < 10) :
    isDigitA (digitChar k) = true := by
  interval_cases k <;> decide

/-- Helper: decimal digit characters are not the directory separator. -/
theorem digitChar_ne_sep (k : Nat) (h : k < 10) : ¬ digitChar k = '/' := by
  interval_cases k <;> decide

/-- Helper: one-digit rendering. -/
theorem decRepr_lt_ten (n : Nat) (h : n < 10) : decRepr n = [digitChar n] := by
  unfold decRepr
  simp only [decRevAux, if_pos h, List.reverse_cons, List.reverse_nil,
    List.nil_append]

/-- Helper: two-digit rendering. -/
theorem decRepr_two (n : Nat) (h10 : 10 ≤ n) (h99 : n ≤ 99) :
    decRepr n = [digitChar (n / 10), digitChar (n % 10)] := by
  have h1 : decRevAux (n + 1) n = digitChar (n % 10) :: decRevAux n (n / 10) := by
    simp only [decRevAux, if_neg (by omega : ¬ n < 10)]
  have h2 : decRevAux n (n / 10) = [digitChar (n / 10)] := by
    obtain ⟨m, rfl⟩ : ∃ m, n = m + 1 := ⟨n - 1, by omega⟩
    simp only [decRevAux, if_pos (by omega : (m + 1) / 10 < 10)]
  unfold decRepr
  rw [h1, h2]
  rfl

/-- Helper: the 02d rendering of a slot between 0 and 99 is the zero-padded
pair of decimal digit characters. -/
theorem sprintf02d_two_digits (slot : Int) (h0 : 0 ≤ slot) (h99 : slot ≤ 99) :
    sprintf02d slot = [digitChar (slot.toNat / 10), digitChar (slot.toNat % 10)] := by
  unfold sprintf02d
  rw [if_neg (by omega : ¬ slot < 0)]
  by_cases h : slot.toNat < 10
  · rw [if_pos h, decRepr_lt_ten _ h]
    have hq : slot.toNat / 10 = 0 := by omega
    have hr : slot.toNat % 10 = slot.toNat := by omega
    rw [hq, hr]
    have : digitChar 0 = '0' := by decide
    rw [this]
  · rw [if_neg h, decRepr_two _ (by omega) (by omega)]

/-- Helper: a list without the separator is its own base name. -/
theorem baseNameOf_no_sep (l : Str) (h : ('/' : Char) ∉ l) : baseNameOf l = l := by
  cases l with
  | nil => rfl
  | cons c cs =>
    have h1 : ¬ c = '/' := fun hc => h (by rw [hc]; exact List.mem_cons_self _ _)
    have h2 : ('/' : Char) ∉ cs := fun hm => h (List.mem_cons_of_mem _ hm)
    simp [baseNameOf, h1, h2]

/-- Helper: the base name after the last separator. -/
theorem baseNameOf_append_sep (u rest : Str) (h : ('/' : Char) ∉ rest) :
    baseNameOf (u ++ '/' :: rest) = rest := by
  induction u with
  | nil =>
    show baseNameOf ('/' :: rest) = rest
    simp [baseNameOf, baseNameOf_no_sep rest h]
  | cons c u ih =>
    show baseNameOf (c :: (u ++ '/' :: rest)) = rest
    by_cases hc : c = '/'
    · simp [baseNameOf, hc, ih]
    · have hm : ('/' : Char) ∈ u ++ '/' :: rest := by simp
      simp [baseNameOf, hc, hm, ih]

/-- C8: for every slot 0 to 99 with a resolved save directory, the produced
path has a base name whose first two characters are the zero-padded decimal
digits of the slot and whose remaining suffix is exactly the configured
extension. -/
theorem c8_filename_shape (env : Env) (s : Settings) (slot : Int) (d : Str)
    (h0 : 0 ≤ slot) (h99 : slot ≤ 99)
    (hd : quicksave_get_current_dir env s = some d)
    (hfmt : ('/' : Char) ∉ s.od_quicksave_format) :
    quicksave_get_filename env s slot =
      some (d ++ '/' :: (sprintf02d slot ++ s.od_quicksave_format)) ∧
    lastFilename (d ++ '/' :: (sprintf02d slot ++ s.od_quicksave_format)) false =
      digitChar (slot.toNat / 10) :: digitChar (slot.toNat % 10) ::
        s.od_quicksave_format ∧
    isDigitA (digitChar (slot.toNat / 10)) = true ∧
    isDigitA (digitChar (slot.toNat % 10)) = true := by
  refine ⟨?_, ?_, isDigitA_digitChar _ (by omega), isDigitA_digitChar _ (by omega)⟩
  · unfold quicksave_get_filename
    rw [hd]
  · have hnot : ('/' : Char) ∉ sprintf02d slot ++ s.od_quicksave_format := by
      intro hm
      rcases List.mem_append.mp hm with hm | hm
      · rw [sprintf02d_two_digits slot h0 h99] at hm
        rcases List.mem_cons.mp hm with hm | hm
        · exact digitChar_ne_sep _ (by omega) hm.symm
        · rcases List.mem_cons.mp hm with hm | hm
          · exact digitChar_ne_sep _ (by omega) hm.symm
          · simp at hm
      · exact hfmt hm
    show baseNameOf (d ++ '/' :: (sprintf02d slot ++ s.od_quicksave_format)) = _
    rw [baseNameOf_append_sep _ _ hnot, sprintf02d_two_digits slot h0 h99]
    rfl

/-- C8 witness: slot 7 in the concrete environment yields base name 07.szx. -/
theorem c8_witness :
    quicksave_get_filename envA setA 7 =
      some (dirA ++ '/' :: (sprintf02d 7 ++ setA.od_quicksave_format)) ∧
    lastFilename (dirA ++ '/' :: (sprintf02d 7 ++ setA.od_quicksave_format)) false =
      digitChar ((7 : Int).toNat / 10) :: digitChar ((7 : Int).toNat % 10) ::
        setA.od_quicksave_format :=
  ⟨(c8_filename_shape envA setA 7 dirA (by decide) (by decide) (by decide)
      (by decide)).1,
    (c8_filename_shape envA setA 7 dirA (by decide) (by decide) (by decide)
      (by decide)).2.1⟩

/-! ## Claim C2 -/

/-- Counted string comparison is reflexive. -/
theorem strncmpEq_refl (n : Nat) (l : Str) : strncmpEq n l l = true := by
  induction n generalizing l with
  | zero => rfl
  | succ n ih =>
    cases l with
    | nil => rfl
    | cons a as => simp [strncmpEq, ih]

/-- Counted string equality either compares the full count on both sides or
exhausts both strings together. -/
theorem strncmpEq_length (n : Nat) (x y : Str) (h : strncmpEq n x y = true) :
    (n ≤ x.length ∧ n ≤ y.length) ∨ x = y := by
  induction n generalizing x y with
  | zero => exact Or.inl ⟨Nat.zero_le _, Nat.zero_le _⟩
  | succ n ih =>
    cases x with
    | nil =>
      cases y with
      | nil => exact Or.inr rfl
      | cons b bs => exact absurd h (by simp [strncmpEq])
    | cons a as =>
      cases y with
      | nil => exact absurd h (by simp [strncmpEq])
      | cons b bs =>
        simp only [strncmpEq, Bool.and_eq_true, beq_iff_eq] at h
        obtain ⟨rfl, h2⟩ := h
        rcases ih as bs h2 with ⟨hx, hy⟩ | rfl
        · exact Or.inl ⟨by simpa using hx, by simpa using hy⟩
        · exact Or.inr rfl

/-- Counted string equality on strings no longer than the count is equality. -/
theorem strncmpEq_eq_of_le (n : Nat) (x y : Str) (hx : x.length ≤ n)
    (hy : y.length ≤ n) (h : strncmpEq n x y = true) : x = y := by
  induction n generalizing x y with
  | zero =>
    cases x with
    | nil =>
      cases y with
      | nil => rfl
      | cons b bs => simp at hy
    | cons a as => simp at hx
  | succ n ih =>
    cases x with
    | nil =>
      cases y with
      | nil => rfl
      | cons b bs => exact absurd h (by simp [strncmpEq])
    | cons a as =>
      cases y with
      | nil => exact absurd h (by simp [strncmpEq])
      | cons b bs =>
        simp only [strncmpEq, Bool.and_eq_true, beq_iff_eq] at h
        obtain ⟨rfl, h2⟩ := h
        rw [ih as bs (by simpa using hx) (by simpa using hy) h2]

/-- Helper: a string without a dot has no last-dot suffix. -/
theorem strrchrDot_of_no_dot (l : Str) (h : ('.' : Char) ∉ l) :
    strrchrDot l = none := by
  induction l with
  | nil => rfl
  | cons c cs ih =>
    have h1 : ¬ c = '.' := fun hc => h (by rw [hc]; exact List.mem_cons_self _ _)
    have h2 : ('.' : Char) ∉ cs := fun hm => h (List.mem_cons_of_mem _ hm)
    simp [strrchrDot, ih h2, h1]

/-- Helper: the suffix from the last dot when the tail has no further dot. -/
theorem strrchrDot_append (pre m : Str) (h : ('.' : Char) ∉ m) :
    strrchrDot (pre ++ '.' :: m) = some ('.' :: m) := by
  induction pre with
  | nil =>
    show strrchrDot ('.' :: m) = some ('.' :: m)
    simp [strrchrDot, strrchrDot_of_no_dot m h]
  | cons c pre ih =>
    show strrchrDot (c :: (pre ++ '.' :: m)) = some ('.' :: m)
    simp [strrchrDot, ih]

/-- Helper: no last-dot suffix means no dot at all. -/
theorem no_dot_of_strrchrDot_none (l : Str) (h : strrchrDot l = none) :
    ('.' : Char) ∉ l := by
  induction l with
  | nil => simp
  | cons c cs ih =>
    intro hm
    unfold strrchrDot at h
    cases hr : strrchrDot cs with
    | some r => rw [hr] at h; exact absurd h (by simp)
    | none =>
      rw [hr] at h
      rcases List.mem_cons.mp hm with rfl | hm2
      · simp at h
      · exact ih hr hm2

/-- Helper: shape of a last-dot suffix. -/
theorem strrchrDot_some (l m : Str) (h : strrchrDot l = some m) :
    ∃ pre m2, l = pre ++ m ∧ m = '.' :: m2 ∧ ('.' : Char) ∉ m2 := by
  induction l generalizing m with
  | nil => exact absurd h (by simp [strrchrDot])
  | cons c cs ih =>
    unfold strrchrDot at h
    cases hr : strrchrDot cs with
    | some r =>
      rw [hr] at h
      have hrm : m = r := by simpa using h.symm
      subst hrm
      obtain ⟨pre, m2, hcs, hm, hnm⟩ := ih _ hr
      exact ⟨c :: pre, m2, by rw [hcs]; rfl, hm, hnm⟩
    | none =>
      rw [hr] at h
      by_cases hc : c = '.'
      · rw [if_pos hc] at h
        obtain rfl : c :: cs = m := by simpa using h
        exact ⟨[], cs, rfl, by rw [hc], no_dot_of_strrchrDot_none cs hr⟩
      · rw [if_neg hc] at h
        exact absurd h (by simp)

/-- Core of the amended claim: for a four-character extension that starts with
a dot and has no further dot, the validator on a base name agrees with the
claimed shape. -/
theorem is_savestate_base_eq_shape (f1 f2 f3 : Char) (b : Str)
    (hf : ('.' : Char) ∉ [f1, f2, f3]) :
    is_savestate_base ['.', f1, f2, f3] b =
      (match b with
       | a :: c :: rest => isDigitA a && isDigitA c && (rest == ['.', f1, f2, f3])
       | _ => false) := by
  rcases b with _ | ⟨a, _ | ⟨c, rest⟩⟩
  · rfl
  · rfl
  · show is_savestate_base ['.', f1, f2, f3] (a :: c :: rest) =
      (isDigitA a && isDigitA c && (rest == ['.', f1, f2, f3]))
    by_cases hr : rest = ['.', f1, f2, f3]
    · subst hr
      unfold is_savestate_base
      rw [if_neg (by simp : ¬ (a :: c :: '.' :: [f1, f2, f3] : Str).length ≠ 6)]
      rw [show (a :: c :: '.' :: [f1, f2, f3] : Str) =
        [a, c] ++ '.' :: [f1, f2, f3] from rfl]
      rw [strrchrDot_append [a, c] [f1, f2, f3] hf]
      simp [strncmpEq_refl]
    · have hRfalse : (rest == ['.', f1, f2, f3]) = false := by
        simpa using hr
      rw [hRfalse, Bool.and_false]
      by_cases hlen : (a :: c :: rest : Str).length = 6
      case neg =>
        unfold is_savestate_base
        rw [if_pos hlen]
      case pos =>
        have hrl : rest.length = 4 := by simpa using hlen
        unfold is_savestate_base
        rw [if_neg (by omega : ¬ (a :: c :: rest : Str).length ≠ 6)]
        cases hsd : strrchrDot (a :: c :: rest) with
        | none => rfl
        | some ext =>
          by_cases hcmp : strncmpEq 4 ext ['.', f1, f2, f3] = true
          case neg =>
            simp [hcmp]
          case pos =>
            obtain ⟨pre, m2, hb, hm, hnm⟩ := strrchrDot_some _ _ hsd
            have hext4 : ext.length = 4 ∨ isDigitA a = false ∨ isDigitA c = false := by
              rcases pre with _ | ⟨p1, _ | ⟨p2, ptail⟩⟩
              · right; left
                rw [hm] at hb
                have ha : a = '.' := by
                  simpa using congrArg (fun l => l.head?) hb
                rw [ha]; decide
              · right; right
                rw [hm] at hb
                have hc2 : c = '.' := by
                  simpa using congrArg (fun l => l.get? 1) hb
                rw [hc2]; decide
              · left
                have hlens : (p1 :: p2 :: ptail : Str).length + ext.length = 6 := by
                  rw [← List.length_append, ← hb]
                  exact hlen
                rcases strncmpEq_length 4 ext ['.', f1, f2, f3] hcmp with ⟨hx, _⟩ | hxe
                · simp at hlens
                  omega
                · rw [hxe]; rfl
            have hguard : (isDigitA a && isDigitA c) = false ∨ False := by
              rcases hext4 with hext4 | hda | hdc
              · have hexteq : ext = ['.', f1, f2, f3] :=
                  strncmpEq_eq_of_le 4 ext ['.', f1, f2, f3] (by omega) (by simp) hcmp
                have hpre2 : pre.length = 2 := by
                  have hl2 : pre.length + ext.length = 6 := by
                    rw [← List.length_append, ← hb]
                    exact hlen
                  omega
                right
                rcases pre with _ | ⟨p1, _ | ⟨p2, ptail⟩⟩
                · simp at hpre2
                · simp at hpre2
                · have hptail : ptail = [] := by
                    simpa using hpre2
                  subst hptail
                  have hre : rest = ext := by
                    have h2 : a :: c :: rest = p1 :: p2 :: ext := by
                      simpa using hb
                    simp only [List.cons.injEq] at h2
                    exact h2.2.2
                  rw [hre, hexteq] at hr
                  exact hr rfl
              · left; rw [hda, Bool.false_and]
              · left; rw [hdc, Bool.and_false]
            rcases hguard with hguard | hguard
            · simp [hcmp, hguard]
            · exact absurd hguard (by simp)

/-- C2 counterexample: with the three-character configured extension sz
preceded by a dot, the name 12.sz has exactly the claimed shape of two digits
followed by the extension, yet the validator rejects it because the code
requires length exactly six. -/
theorem c2_counterexample :
    is_savestate_name ['.', 's', 'z'] ['1', '2', '.', 's', 'z'] = false ∧
    validator_claim_shape ['.', 's', 'z'] ['1', '2', '.', 's', 'z'] = true := by
  decide

/-- C2 amended: for a four-character configured extension that starts with a
dot and contains no further dot, the validator accepts exactly the names
whose base name is two ASCII digits followed by the extension; in general the
code fixes the base name length to six and compares only the first four
characters after the last dot. -/
theorem c2_amended (f1 f2 f3 : Char) (name : Str)
    (hf : ('.' : Char) ∉ [f1, f2, f3]) :
    is_savestate_name ['.', f1, f2, f3] name =
      validator_claim_shape ['.', f1, f2, f3] name := by
  unfold is_savestate_name validator_claim_shape
  exact is_savestate_base_eq_shape f1 f2 f3 (lastFilename name false) hf

/-- C2 amended, witness: the szx extension with a dot accepts 00.szx on both
sides. -/
theorem c2_witness :
    is_savestate_name ['.', 's', 'z', 'x'] ['0', '0', '.', 's', 'z', 'x'] =
      validator_claim_shape ['.', 's', 'z', 'x'] ['0', '0', '.', 's', 'z', 'x'] :=
  c2_amended 's' 'z' 'x' ['0', '0', '.', 's', 'z', 'x'] (by decide)

/-! ## Claim C9 -/

/-- Helper: dropWhile distributes over an append whose marker element fails
the predicate. -/
theorem dropWhile_append_mid (p : Char → Bool) (u : Str) (e : Char) (v : Str)
    (he : p e = false) :
    List.dropWhile p (u ++ e :: v) = List.dropWhile p u ++ e :: v := by
  induction u with
  | nil =>
    show List.dropWhile p (e :: v) = List.dropWhile p [] ++ e :: v
    rw [List.dropWhile_cons_of_neg (by simp [he]), List.dropWhile_nil,
      List.nil_append]
  | cons c u ih =>
    show List.dropWhile p (c :: (u ++ e :: v)) = _
    by_cases hc : p c = true
    · rw [List.dropWhile_cons_of_pos hc, ih]
      rw [List.dropWhile_cons_of_pos hc]
    · rw [List.dropWhile_cons_of_neg hc]
      rw [List.dropWhile_cons_of_neg hc]
      rw [List.cons_append]

/-- Helper: removing the head preserves keyword freeness. -/
theorem hasKeyword_tail (x : Char) (xs : Str)
    (h : hasKeyword (x :: xs) = false) : hasKeyword xs = false := by
  rcases xs with _ | ⟨a, _ | ⟨b, _ | ⟨c, rest⟩⟩⟩
  · rfl
  · rfl
  · rfl
  · unfold hasKeyword at h
    exact (Bool.or_eq_false_iff.mp h).2

/-- Helper: removing a whole prefix preserves keyword freeness. -/
theorem hasKeyword_append_left (w u : Str) :
    hasKeyword (w ++ u) = false → hasKeyword u = false := by
  induction w with
  | nil => intro h; simpa using h
  | cons c w ih =>
    intro h
    exact ih (hasKeyword_tail c (w ++ u) (by simpa using h))

/-- Helper: suffixes of keyword-free strings are keyword free. -/
theorem hasKeyword_suffix (u v : Str) (hs : u <:+ v)
    (h : hasKeyword v = false) : hasKeyword u = false := by
  obtain ⟨w, rfl⟩ := hs
  exact hasKeyword_append_left w u h

/-- Helper: a keyword-free string of length at least four does not start with
a keyword. -/
theorem hasKeyword_head (a b c d : Char) (rest : Str)
    (h : hasKeyword (a :: b :: c :: d :: rest) = false) : kw4 a b c d = false := by
  unfold hasKeyword at h
  exact (Bool.or_eq_false_iff.mp h).1

/-- Helper: no keyword has a space as its second letter. -/
theorem kw4_sp2 (a c d : Char) : kw4 a ' ' c d = false := by
  have h1 : ci ' ' 'i' 'I' = false := by decide
  have h2 : ci ' ' 'a' 'A' = false := by decide
  unfold kw4
  rw [h1, h2]
  simp

/-- Helper: no keyword has a space as its third letter. -/
theorem kw4_sp3 (a b d : Char) : kw4 a b ' ' d = false := by
  have h1 : ci ' ' 's' 'S' = false := by decide
  have h2 : ci ' ' 'p' 'P' = false := by decide
  have h3 : ci ' ' 'd' 'D' = false := by decide
  have h4 : ci ' ' 'r' 'R' = false := by decide
  unfold kw4
  rw [h1, h2, h3, h4]
  simp

/-- Helper: no keyword has a space as its fourth letter. -/
theorem kw4_sp4 (a b c : Char) : kw4 a b c ' ' = false := by
  have h1 : ci ' ' 'k' 'K' = false := by decide
  have h2 : ci ' ' 'e' 'E' = false := by decide
  have h3 : ci ' ' 't' 'T' = false := by decide
  unfold kw4
  rw [h1, h2, h3]
  simp

/-- Helper: a case-insensitive match pins the character to two values. -/
theorem ci_cases (a lo up : Char) (h : ci a lo up = true) : a = lo ∨ a = up := by
  unfold ci at h
  simpa using h

/-- Helper: the first letter of a keyword is not consumable by the prefix
groups of the pattern. -/
theorem kw4_first (a b c d : Char) (h : kw4 a b c d = true) :
    clsB a = false ∧ isSpaceA a = false ∧ isOpenBrA a = false := by
  unfold kw4 at h
  simp only [Bool.or_eq_true, Bool.and_eq_true] at h
  rcases h with ((h1 | h1) | h1) | h1 <;>
    rcases ci_cases _ _ _ h1.1.1.1 with rfl | rfl <;>
      exact ⟨by decide, by decide, by decide⟩

/-- Helper: identifier characters are alphanumeric, hence not separators. -/
theorem idChar_not_sep (i : Char) (h : isIdChar i = true) :
    isSepPunctA i = false := by
  have hm : i ∈ ['a', 'b', 'c', 'd', 'A', 'B', 'C', 'D', '1', '2', '3', '4'] := by
    have := h
    unfold isIdChar at this
    simpa using this
  fin_cases hm <;> decide

/-- Helper: of-digits are not whitespace. -/
theorem digit14_not_space (k : Char) (h : isDigit14 k = true) :
    isSpaceA k = false := by
  have hm : k ∈ ['1', '2', '3', '4'] := by
    have := h
    unfold isDigit14 at this
    simpa using this
  fin_cases hm <;> decide

/-- Helper: the of-group parser leaves a closing bracket untouched. -/
theorem parseOfF_close (n : Nat) (t : Str) : parseOfF n (')' :: t) = ')' :: t := by
  cases n with
  | zero => rfl
  | succ m =>
    unfold parseOfF
    rw [List.dropWhile_cons_of_neg (by decide)]
    simp [show ci ')' 'o' 'O' = false from by decide]

/-- Helper: the of-group parser consumes exactly one of-group before a
closing bracket. -/
theorem parseOfF_qual (fuel : Nat) (hf : 1 ≤ fuel) (k : Char)
    (hk : isDigit14 k = true) (t : Str) :
    parseOfF fuel (' ' :: 'o' :: 'f' :: ' ' :: k :: ')' :: t) = ')' :: t := by
  obtain ⟨m, rfl⟩ : ∃ m, fuel = m + 1 := ⟨fuel - 1, by omega⟩
  unfold parseOfF
  rw [List.dropWhile_cons_of_pos (by decide), List.dropWhile_cons_of_neg (by decide)]
  simp only [show ci 'o' 'o' 'O' = true from by decide,
    show ci 'f' 'f' 'F' = true from by decide, if_true]
  rw [List.dropWhile_cons_of_pos (by decide),
    List.dropWhile_cons_of_neg (by simp [digit14_not_space k hk])]
  simp [hk, parseOfF_close]

/-- Helper: the qualifier matcher fully consumes a rendered qualifier and the
greedy trailing groups of the continuation. -/
theorem matchQualifier_qual (w1 w2 w3 w4 i k : Char) (t : Str)
    (hw : kw4 w1 w2 w3 w4 = true) (hi : isIdChar i = true)
    (hk : isDigit14 k = true) :
    matchQualifier (qualStr w1 w2 w3 w4 i k ++ t) = some (tailAfter t) := by
  obtain ⟨hcls, hsp, hbr⟩ := kw4_first w1 w2 w3 w4 hw
  rw [show qualStr w1 w2 w3 w4 i k ++ t =
      ' ' :: '(' :: w1 :: w2 :: w3 :: w4 :: ' ' :: i :: ' ' :: 'o' :: 'f' ::
        ' ' :: k :: ')' :: t from by simp [qualStr]]
  unfold matchQualifier
  rw [List.dropWhile_cons_of_pos (by decide : isSpaceDashA ' ' = true),
    List.dropWhile_cons_of_neg (by decide : ¬ isSpaceDashA '(' = true),
    List.dropWhile_cons_of_pos (by decide : isOpenBrA '(' = true),
    List.dropWhile_cons_of_neg (by simp [hbr] : ¬ isOpenBrA w1 = true),
    List.dropWhile_cons_of_neg (by simp [hsp] : ¬ isSpaceA w1 = true)]
  simp only [hw, if_true]
  rw [List.dropWhile_cons_of_pos (by decide : isSepPunctA ' ' = true),
    List.dropWhile_cons_of_neg (by simp [idChar_not_sep i hi])]
  simp only [hi, if_true]
  rw [parseOfF_qual (' ' :: 'o' :: 'f' :: ' ' :: k :: ')' :: t : Str).length
    (Nat.succ_le_succ (Nat.zero_le _)) k hk t]
  rw [List.dropWhile_cons_of_neg (by decide : ¬ isSpaceA ')' = true),
    List.dropWhile_cons_of_pos (by decide : isCloseBrA ')' = true)]
  rfl

/-- Helper: the qualifier matcher fails at every position of a keyword-free
prefix that ends in a character outside the prefix classes of the pattern,
when a space and an opening bracket follow.  The mandatory keyword can sit
neither inside the prefix nor straddling its end. -/
theorem matchQualifier_prefix_none (g0 : Str) (e : Char) (v : Str)
    (hkf : hasKeyword (g0 ++ [e]) = false) (hcls : clsB e = false) :
    matchQualifier ((g0 ++ [e]) ++ ' ' :: '(' :: v) = none := by
  have he1 : isSpaceDashA e = false := (Bool.or_eq_false_iff.mp hcls).1
  have he2 : isOpenBrA e = false := (Bool.or_eq_false_iff.mp hcls).2
  have he3 : isSpaceA e = false :=
    (Bool.or_eq_false_iff.mp (Bool.or_eq_false_iff.mp he1).1).1
  have hA : List.dropWhile isSpaceDashA ((g0 ++ [e]) ++ ' ' :: '(' :: v) =
      List.dropWhile isSpaceDashA g0 ++ e :: ' ' :: '(' :: v := by
    rw [show (g0 ++ [e]) ++ ' ' :: '(' :: v = g0 ++ e :: ' ' :: '(' :: v from
      by simp]
    exact dropWhile_append_mid _ _ _ _ he1
  have hB : List.dropWhile isOpenBrA
      (List.dropWhile isSpaceDashA g0 ++ e :: ' ' :: '(' :: v) =
      List.dropWhile isOpenBrA (List.dropWhile isSpaceDashA g0) ++
        e :: ' ' :: '(' :: v :=
    dropWhile_append_mid _ _ _ _ he2
  have hC : List.dropWhile isSpaceA
      (List.dropWhile isOpenBrA (List.dropWhile isSpaceDashA g0) ++
        e :: ' ' :: '(' :: v) =
      List.dropWhile isSpaceA (List.dropWhile isOpenBrA
        (List.dropWhile isSpaceDashA g0)) ++ e :: ' ' :: '(' :: v :=
    dropWhile_append_mid _ _ _ _ he3
  have hsfx : List.dropWhile isSpaceA (List.dropWhile isOpenBrA
      (List.dropWhile isSpaceDashA g0)) <:+ g0 :=
    (List.dropWhile_suffix _).trans
      ((List.dropWhile_suffix _).trans (List.dropWhile_suffix _))
  have hkf3 : hasKeyword (List.dropWhile isSpaceA (List.dropWhile isOpenBrA
      (List.dropWhile isSpaceDashA g0)) ++ [e]) = false := by
    obtain ⟨w, hw⟩ := hsfx
    exact hasKeyword_suffix _ _ ⟨w, by rw [← List.append_assoc, hw]⟩ hkf
  unfold matchQualifier
  rw [hA, hB, hC]
  revert hkf3
  generalize List.dropWhile isSpaceA (List.dropWhile isOpenBrA
    (List.dropWhile isSpaceDashA g0)) = u3
  intro hkf3
  rcases u3 with _ | ⟨x1, _ | ⟨x2, _ | ⟨x3, _ | ⟨x4, u5⟩⟩⟩⟩
  · rcases v with _ | ⟨w, v2⟩
    · rfl
    · simp [kw4_sp2]
  · simp [kw4_sp3]
  · simp [kw4_sp4]
  · have hx : kw4 x1 x2 x3 e = false :=
      hasKeyword_head x1 x2 x3 e [] (by simpa using hkf3)
    simp [hx]
  · have hx : kw4 x1 x2 x3 x4 = false :=
      hasKeyword_head x1 x2 x3 x4 (u5 ++ [e]) (by simpa using hkf3)
    simp [hx]

/-- Helper: removal walks a keyword-free prefix ending outside the prefix
classes character by character, removes the rendered qualifier whole, and
afterwards behaves identically for any two qualifiers that differ only in
their identifier character and of-number. -/
theorem chopF_walk (w1 w2 w3 w4 i1 k1 i2 k2 : Char)
    (hw : kw4 w1 w2 w3 w4 = true)
    (hi1 : isIdChar i1 = true) (hk1 : isDigit14 k1 = true)
    (hi2 : isIdChar i2 = true) (hk2 : isDigit14 k2 = true) :
    ∀ (g t : Str) (f : Nat),
      hasKeyword g = false →
      (g = [] ∨ ∃ g0 e, g = g0 ++ [e] ∧ clsB e = false) →
      g.length + 1 ≤ f →
      chopF f (g ++ qualStr w1 w2 w3 w4 i1 k1 ++ t) =
        chopF f (g ++ qualStr w1 w2 w3 w4 i2 k2 ++ t) := by
  intro g
  induction g with
  | nil =>
    intro t f h1 h2 h3
    obtain ⟨f2, rfl⟩ : ∃ f2, f = f2 + 1 := ⟨f - 1, by omega⟩
    have hm1 := matchQualifier_qual w1 w2 w3 w4 i1 k1 t hw hi1 hk1
    have hm2 := matchQualifier_qual w1 w2 w3 w4 i2 k2 t hw hi2 hk2
    show chopF (f2 + 1) (qualStr w1 w2 w3 w4 i1 k1 ++ t) =
      chopF (f2 + 1) (qualStr w1 w2 w3 w4 i2 k2 ++ t)
    rw [show qualStr w1 w2 w3 w4 i1 k1 ++ t =
        ' ' :: ('(' :: w1 :: w2 :: w3 :: w4 :: ' ' :: i1 :: ' ' :: 'o' :: 'f' ::
          ' ' :: k1 :: ')' :: t) from by simp [qualStr]] at hm1 ⊢
    rw [show qualStr w1 w2 w3 w4 i2 k2 ++ t =
        ' ' :: ('(' :: w1 :: w2 :: w3 :: w4 :: ' ' :: i2 :: ' ' :: 'o' :: 'f' ::
          ' ' :: k2 :: ')' :: t) from by simp [qualStr]] at hm2 ⊢
    simp only [chopF, hm1, hm2]
  | cons c g2 ih =>
    intro t f h1 h2 h3
    obtain ⟨f2, rfl⟩ : ∃ f2, f = f2 + 1 := ⟨f - 1, by omega⟩
    obtain ⟨g0, e, hge, hcls⟩ : ∃ g0 e, c :: g2 = g0 ++ [e] ∧ clsB e = false := by
      rcases h2 with h2 | h2
      · exact absurd h2 (by simp)
      · exact h2
    have hm1 : matchQualifier (c :: (g2 ++ qualStr w1 w2 w3 w4 i1 k1 ++ t)) =
        none := by
      have h0 := matchQualifier_prefix_none g0 e
        (w1 :: w2 :: w3 :: w4 :: ' ' :: i1 :: ' ' :: 'o' :: 'f' :: ' ' ::
          k1 :: ')' :: t) (hge ▸ h1) hcls
      rw [← hge] at h0
      simpa [qualStr] using h0
    have hm2 : matchQualifier (c :: (g2 ++ qualStr w1 w2 w3 w4 i2 k2 ++ t)) =
        none := by
      have h0 := matchQualifier_prefix_none g0 e
        (w1 :: w2 :: w3 :: w4 :: ' ' :: i2 :: ' ' :: 'o' :: 'f' :: ' ' ::
          k2 :: ')' :: t) (hge ▸ h1) hcls
      rw [← hge] at h0
      simpa [qualStr] using h0
    have hsh2 : g2 = [] ∨ ∃ g0b eb, g2 = g0b ++ [eb] ∧ clsB eb = false := by
      rcases g0 with _ | ⟨c0, g0b⟩
      · left
        have : c :: g2 = [e] := by simpa using hge
        exact (List.cons.injEq _ _ _ _ ▸ this).2
      · right
        have : c :: g2 = c0 :: (g0b ++ [e]) := by simpa using hge
        exact ⟨g0b, e, (List.cons.injEq _ _ _ _ ▸ this).2, hcls⟩
    have hrec := ih t f2 (hasKeyword_tail _ _ h1) hsh2 (by simp at h3 ⊢; omega)
    show chopF (f2 + 1) (c :: (g2 ++ qualStr w1 w2 w3 w4 i1 k1 ++ t)) =
      chopF (f2 + 1) (c :: (g2 ++ qualStr w1 w2 w3 w4 i2 k2 ++ t))
    simp only [chopF, hm1, hm2]
    rw [hrec]

/-- C9: two loaded-program names that differ only in a parenthesised
disk/tape/side/part qualifier produce identical sanitizer output and resolve
to the same save directory.  The common part before the qualifier is keyword
free and ends in an ordinary character, the qualifiers share their keyword
and differ in the identifier character and the of-number, and the common tail
after the qualifier is arbitrary. -/
theorem c9_sanitizer_invariance (env : Env) (s : Settings) (n1 n2 g t : Str)
    (w1 w2 w3 w4 i1 k1 i2 k2 : Char)
    (hw : kw4 w1 w2 w3 w4 = true)
    (hi1 : isIdChar i1 = true) (hk1 : isDigit14 k1 = true)
    (hi2 : isIdChar i2 = true) (hk2 : isDigit14 k2 = true)
    (hg : hasKeyword g = false)
    (hsh : g = [] ∨ ∃ g0 e, g = g0 ++ [e] ∧ clsB e = false)
    (h1 : lastFilename n1 true = g ++ qualStr w1 w2 w3 w4 i1 k1 ++ t)
    (h2 : lastFilename n2 true = g ++ qualStr w1 w2 w3 w4 i2 k2 ++ t) :
    quicksave_get_current_program { env with last_filename := some n1 } =
      quicksave_get_current_program { env with last_filename := some n2 } ∧
    quicksave_get_current_dir { env with last_filename := some n1 } s =
      quicksave_get_current_dir { env with last_filename := some n2 } s := by
  have hch : compat_chop_expressions (lastFilename n1 true) =
      compat_chop_expressions (lastFilename n2 true) := by
    rw [h1, h2]
    unfold compat_chop_expressions
    have hlen : (g ++ qualStr w1 w2 w3 w4 i1 k1 ++ t).length =
        (g ++ qualStr w1 w2 w3 w4 i2 k2 ++ t).length := by
      simp [qualStr]
    rw [hlen]
    exact chopF_walk w1 w2 w3 w4 i1 k1 i2 k2 hw hi1 hk1 hi2 hk2 g t _ hg hsh
      (by simp [qualStr])
  constructor
  · show some (compat_chop_expressions (lastFilename n1 true)) =
      some (compat_chop_expressions (lastFilename n2 true))
    rw [hch]
  · show (match env.cfgdir with
      | none => none
      | some cfg => some ((cfg ++ '/' :: savestatesLit) ++
          (if s.od_quicksave_per_machine then '/' :: env.machineName else []) ++
          '/' :: compat_chop_expressions (lastFilename n1 true))) =
      (match env.cfgdir with
      | none => none
      | some cfg => some ((cfg ++ '/' :: savestatesLit) ++
          (if s.od_quicksave_per_machine then '/' :: env.machineName else []) ++
          '/' :: compat_chop_expressions (lastFilename n2 true)))
    rw [hch]

/-- Name of a two-disk program, first disk. -/
def gameDisk1 : Str :=
  ['G', 'a', 'm', 'e', ' ', '(', 'D', 'i', 's', 'k', ' ', '1', ' ', 'o', 'f',
   ' ', '2', ')']

/-- Name of a two-disk program, second disk. -/
def gameDisk2 : Str :=
  ['G', 'a', 'm', 'e', ' ', '(', 'D', 'i', 's', 'k', ' ', '2', ' ', 'o', 'f',
   ' ', '2', ')']

/-- C9 witness: the two names of the two-disk program sanitize identically
and share one save directory. -/
theorem c9_witness :
    quicksave_get_current_program { envA with last_filename := some gameDisk1 } =
      quicksave_get_current_program { envA with last_filename := some gameDisk2 } ∧
    quicksave_get_current_dir { envA with last_filename := some gameDisk1 } setA =
      quicksave_get_current_dir { envA with last_filename := some gameDisk2 } setA :=
  c9_sanitizer_invariance envA setA gameDisk1 gameDisk2
    ['G', 'a', 'm', 'e'] [] 'D' 'i' 's' 'k' '1' '2' '2' '2'
    (by decide) (by decide) (by decide) (by decide) (by decide) (by decide)
    (Or.inr ⟨['G', 'a', 'm'], 'e', by decide, by decide⟩)
    (by decide) (by decide)

end Savestates
